import Mathlib

/-!
# Verification of `scripts/import-performance.py`

A shallow embedding of the performance-import script. Python strings are
modelled as `List Char`; spreadsheet cells as the inductive `Cell`
(missing/NaN, string, or numeric); Python numbers as `PyNum` (an `int` is an
`Int`, a `float` a rational — finite values only, so IEEE infinities and NaNs
are outside the model). Each Python function is translated into an executable
Lean definition of the same name where Lean allows it.
-/

namespace ImportPerformance

attribute [local semireducible] Rat.mul Rat.inv Rat.add Rat.sub

/-- ASCII decimal digit test, as used by Python `int()` / `float()` parsing
of the inputs the script sees. -/
def isDigitChar (c : Char) : Bool := '0' ≤ c && c ≤ '9'

/-- Python whitespace for `str.strip()` / `str.split()` (ASCII subset). -/
def isSpaceChar (c : Char) : Bool :=
  c = ' ' || c = '\t' || c = '\n' || c = '\r' || c = '\x0b' || c = '\x0c'

/-- Python `str.lower()` on one character (ASCII case mapping). -/
def pyLowerChar (c : Char) : Char :=
  if 'A' ≤ c && c ≤ 'Z' then Char.ofNat (c.toNat + 32) else c

/-- Python `str.lower()`. -/
def pyLower (s : List Char) : List Char := s.map pyLowerChar

/-- Python `str.strip()`: drop leading and trailing whitespace. -/
def pyStrip (s : List Char) : List Char :=
  ((s.dropWhile isSpaceChar).reverse.dropWhile isSpaceChar).reverse

/-- Python `str.split(sep)` for a one-character separator: split at every
occurrence, keeping empty pieces (`"".split("/") == [""]`). -/
def splitOnChar (sep : Char) : List Char → List (List Char)
  | [] => [[]]
  | c :: cs =>
    if c = sep then [] :: splitOnChar sep cs
    else
      match splitOnChar sep cs with
      | [] => [[c]]
      | p :: ps => (c :: p) :: ps

/-- Python `str.split()` with no argument: split on runs of whitespace,
discarding empty pieces. -/
def pySplitWs : List Char → List (List Char)
  | [] => []
  | c :: cs =>
    if isSpaceChar c then pySplitWs cs
    else
      match pySplitWs cs with
      | [] => [[c]]
      | p :: ps =>
        match cs with
        | [] => [[c]]
        | d :: _ => if isSpaceChar d then [c] :: p :: ps else (c :: p) :: ps

/-- Numeric value of a list of decimal digit characters. -/
def digitsVal (s : List Char) : Nat :=
  s.foldl (fun acc c => acc * 10 + (c.toNat - 48)) 0

/-- Check that no two adjacent characters are both underscores. -/
def noDoubleUnderscore : List Char → Bool
  | c :: d :: rest => !(c = '_' && d = '_') && noDoubleUnderscore (d :: rest)
  | _ => true

/-- A digit string as Python `int()` accepts it after sign stripping:
nonempty, digits with single underscores strictly between digits. -/
def validIntBody (s : List Char) : Bool :=
  !s.isEmpty
  && s.all (fun c => isDigitChar c || c = '_')
  && isDigitChar (s.headD '_')
  && isDigitChar (s.getLastD '_')
  && noDoubleUnderscore s

/-- Python `int(s)` on a string: optional surrounding whitespace, optional
sign, then a digit string (underscore separators allowed); `none` models the
`ValueError` path. -/
def pyInt (s : List Char) : Option Int :=
  match pyStrip s with
  | [] => none
  | c :: rest =>
    if c = '+' then
      if validIntBody rest then some (digitsVal (rest.filter isDigitChar)) else none
    else if c = '-' then
      if validIntBody rest then some (-(digitsVal (rest.filter isDigitChar) : Int)) else none
    else
      if validIntBody (c :: rest) then
        some (digitsVal ((c :: rest).filter isDigitChar))
      else none

/-- Decimal digits with a structural fuel so the kernel can evaluate; the
fuel never runs out when it is at least the digit count. -/
def natToDigitsAux : Nat → Nat → List Char
  | 0, _ => []
  | fuel + 1, n =>
    if n < 10 then [Char.ofNat (48 + n)]
    else natToDigitsAux fuel (n / 10) ++ [Char.ofNat (48 + n % 10)]

/-- Decimal digits of a natural number, most significant first. -/
def natToDigits (n : Nat) : List Char := natToDigitsAux (n + 1) n

/-- Python `f"{i:02d}"`: decimal rendering padded with zeros to width 2
(the sign counts toward the width, as in Python). -/
def fmt02d (i : Int) : List Char :=
  if i < 0 then '-' :: natToDigits i.natAbs
  else if i < 10 then '0' :: natToDigits i.toNat
  else natToDigits i.toNat

/-- Prefix test: `listStartsWith needle hay` means `needle` is a prefix of `hay`. -/
def listStartsWith : List Char → List Char → Bool
  | [], _ => true
  | _ :: _, [] => false
  | c :: cs, d :: ds => c = d && listStartsWith cs ds

/-- Python `needle in hay` on strings: substring containment (the empty
string is contained in everything, as in Python). -/
def isSubstr (needle : List Char) : List Char → Bool
  | [] => needle.isEmpty
  | c :: cs => listStartsWith needle (c :: cs) || isSubstr needle cs

/-- A Python number as the script produces it: an `int`, or a `float`
modelled as a rational (finite values; IEEE `inf`/`nan` are outside the
model). -/
inductive PyNum
  | pint (i : ℤ)
  | pfloat (q : ℚ)
deriving DecidableEq, Repr

/-- Python truthiness of a number: zero is falsy. -/
def PyNum.truthy : PyNum → Bool
  | pint i => i != 0
  | pfloat q => q != 0

/-- A spreadsheet / JSON value as the script sees it: missing (`NaN` /
`None`, i.e. `pd.isna` holds), a string, or a finite float. -/
inductive Cell
  | nan
  | str (s : List Char)
  | num (q : ℚ)
deriving DecidableEq, Repr

/-- Digits of the fractional part `0 ≤ q < 1` of a rational, with fuel
bounding the number of places (floats are dyadic so their exact decimal
expansion terminates; the fuel covers the places a double can need). -/
def fracDigits : Nat → ℚ → List Char
  | 0, _ => []
  | fuel + 1, q =>
    if q = 0 then []
    else
      let d := (⌊q * 10⌋).toNat
      Char.ofNat (48 + d) :: fracDigits fuel (q * 10 - ⌊q * 10⌋)

/-- Python `str()` of a float, modelled as exact decimal rendering of the
rational (always with a decimal point, as Python prints floats). -/
def ratToDecimal (q : ℚ) : List Char :=
  let sign : List Char := if q < 0 then ['-'] else []
  let a := |q|
  let fds := fracDigits 60 (a - ⌊a⌋)
  sign ++ natToDigits (⌊a⌋).toNat ++ '.' :: (if fds.isEmpty then ['0'] else fds)

/-- Python `str()` on a cell value (`str(float("nan")) == "nan"`). -/
def pyStr : Cell → List Char
  | Cell.nan => ['n', 'a', 'n']
  | Cell.str s => s
  | Cell.num q => ratToDecimal q

/-- Scan the maximal run of digit-or-underscore characters: a candidate
digit group of a Python numeric literal, still to be validated. -/
def takeNumGroup (s : List Char) : List Char × List Char :=
  (s.takeWhile (fun c => isDigitChar c || c = '_'),
    s.dropWhile (fun c => isDigitChar c || c = '_'))

/-- Value of a validated digit group, underscores removed. -/
def groupVal (g : List Char) : Nat := digitsVal (g.filter isDigitChar)

/-- The optional exponent suffix of a Python float literal applied to an
already-parsed mantissa; the exponent digits may carry PEP 515 underscore
separators; `none` models `ValueError` on trailing garbage. -/
def parseExpPart (m : ℚ) : List Char → Option ℚ
  | [] => some m
  | c :: r =>
    if c = 'e' || c = 'E' then
      let (neg, r2) : Bool × List Char :=
        match r with
        | '+' :: r1 => (false, r1)
        | '-' :: r1 => (true, r1)
        | r1 => (false, r1)
      let (ds, r3) := takeNumGroup r2
      if !validIntBody ds || !r3.isEmpty then none
      else some (if neg then m / 10 ^ groupVal ds else m * 10 ^ groupVal ds)
    else none

/-- Mantissa of a Python float literal: `digitpart [. digitpart]` or
`. digitpart`, followed by the optional exponent; each digit group follows
the PEP 515 rule (underscores only strictly between digits), and the
fractional scale counts digits with underscores removed. -/
def pyFloatBody (s : List Char) : Option ℚ :=
  let (ig, r1) := takeNumGroup s
  match r1 with
  | '.' :: r2 =>
    let (fg, r3) := takeNumGroup r2
    if ig.isEmpty && fg.isEmpty then none
    else if !ig.isEmpty && !validIntBody ig then none
    else if !fg.isEmpty && !validIntBody fg then none
    else parseExpPart ((groupVal ig : ℚ) +
      (groupVal fg : ℚ) / 10 ^ (fg.filter isDigitChar).length) r3
  | r =>
    if validIntBody ig then parseExpPart (groupVal ig : ℚ) r else none

/-- Python `float(s)` on a string: optional surrounding whitespace, optional
sign, decimal mantissa with optional exponent, underscore digit separators
accepted as in PEP 515 (`float("1_0") == 10.0`); `none` models `ValueError`
(`inf`/`nan` literals are outside the rational model). -/
def pyFloat (s : List Char) : Option ℚ :=
  let t := pyStrip s
  match t with
  | '+' :: rest => pyFloatBody rest
  | '-' :: rest => (pyFloatBody rest).map (fun q => -q)
  | rest => pyFloatBody rest

/-- Cell coercion `pd.notna(val)` followed by `val = float(val)` under
`try/except (ValueError, TypeError)`: `none` when the cell is missing or
the coercion fails, otherwise the float value. -/
def coerceCell : Cell → Option ℚ
  | Cell.nan => none
  | Cell.num q => some q
  | Cell.str s => pyFloat s

/-- Python `int()` applied to a float: truncation toward zero. -/
def pyTrunc (q : ℚ) : ℤ := if 0 ≤ q then ⌊q⌋ else -⌊-q⌋

/-- Round-half-to-even to the nearest integer, as Python `round` does. -/
def roundHalfEven (q : ℚ) : ℤ :=
  let f := ⌊q⌋
  let r := q - f
  if r < 1 / 2 then f
  else if 1 / 2 < r then f + 1
  else if f % 2 = 0 then f else f + 1

/-- Python `round(x, 2)` on the rational model of a float. -/
def pyRound2 (q : ℚ) : ℚ := (roundHalfEven (q * 100) : ℚ) / 100

/-- A player id from the database (an opaque string). -/
abbrev PlayerId := List Char

/-- A (possibly normalized) name string. -/
abbrev Name := List Char

/-- Function `normalize_name` from the source: `None` for a missing value, else
`str(name).lower().strip()`. -/
def normalize_name : Cell → Option Name
  | Cell.nan => none
  | c => some (pyStrip (pyLower (pyStr c)))

/-- Function `parse_date` from the source: `str(date_str).split("/")`, exactly three
parts expected; a 2-character year is prefixed with `"20"`; month and day go
through `int()` and are rendered `02d`; the year is used verbatim. Any
`int()` failure lands in the bare `except` and yields `None`. -/
def parse_date (date_str : Cell) : Option (List Char) :=
  match splitOnChar '/' (pyStr date_str) with
  | [month, day, year] =>
    let year2 := if year.length = 2 then '2' :: '0' :: year else year
    match pyInt month, pyInt day with
    | some m, some d => some (year2 ++ '-' :: fmt02d m ++ '-' :: fmt02d d)
    | _, _ => none
  | _ => none

/-- Lines 67-72 of `main`: walk header columns from index 4, keep
`(col, parsed)` for every cell whose parse is truthy (a non-`None`,
non-empty string). -/
def extractDates (header : List Cell) : List (Nat × List Char) :=
  ((List.range header.length).drop 4).filterMap (fun col =>
    match parse_date (header.getD col Cell.nan) with
    | some p => if p.isEmpty then none else some (col, p)
    | none => none)

/-- Python truthiness of an optional string: `None` and `""` are falsy. -/
def optStrTruthy : Option (List Char) → Bool
  | none => false
  | some s => !s.isEmpty

/-- Insert into a Python dict modelled as an association list: an existing
key keeps its position and takes the new value, a new key goes to the end. -/
def pyDictInsert (d : List (Option Name × PlayerId)) (k : Option Name) (v : PlayerId) :
    List (Option Name × PlayerId) :=
  if d.any (fun p => p.1 == k) then d.map (fun p => if p.1 == k then (p.1, v) else p)
  else d ++ [(k, v)]

/-- Line 79 of `main`: the players dict
`{normalize_name(p["display_name"]): p["id"] for p in players_data}`. -/
def buildPlayers (players_data : List (Cell × PlayerId)) : List (Option Name × PlayerId) :=
  players_data.foldl (fun d r => pyDictInsert d (normalize_name r.1) r.2) []

/-- Python `dict.get`: the value at the key, or `None`. -/
def dictGet (d : List (Option Name × PlayerId)) (k : Option Name) : Option PlayerId :=
  (d.find? (fun p => p.1 == k)).map Prod.snd

/-- Token set `set(s.split())`: the distinct whitespace-delimited tokens of a name. -/
def tokenSet (s : Name) : List Name := (pySplitWs s).dedup

/-- Lines 113-122 of `main`: the fuzzy fallback loop over the players dict in
insertion order. A candidate is examined only when both its key and the
normalized input are truthy; substring containment either direction wins,
else a shared token with an input of at most 3 distinct tokens wins; the
first winner's id is returned (`break`). -/
def matchPlayer (normalized : Option Name) : List (Option Name × PlayerId) → Option PlayerId
  | [] => none
  | (db_name, db_id) :: rest =>
    match db_name, normalized with
    | some dbn, some nm =>
      if !dbn.isEmpty && !nm.isEmpty then
        if isSubstr nm dbn || isSubstr dbn nm then some db_id
        else if ((tokenSet nm).filter (fun t => (tokenSet dbn).contains t)).length ≥ 1 &&
            (tokenSet nm).length ≤ 3 then some db_id
        else matchPlayer normalized rest
      else matchPlayer normalized rest
    | _, _ => matchPlayer normalized rest

/-- One candidate test of the fallback loop, as a predicate: the truthiness
guard, then rule (a) substring containment either direction, then rule (b)
token overlap with at most 3 input tokens. -/
def matchCand (normalized : Option Name) (c : Option Name × PlayerId) : Bool :=
  match c.1, normalized with
  | some dbn, some nm =>
    !dbn.isEmpty && !nm.isEmpty &&
      (isSubstr nm dbn || isSubstr dbn nm ||
        (((tokenSet nm).filter (fun t => (tokenSet dbn).contains t)).length ≥ 1 &&
          (tokenSet nm).length ≤ 3))
  | _, _ => false

/-- Lines 110-122 of `main`: exact dict lookup first; when the result is
falsy, the fallback loop runs, and if it too finds nothing the falsy lookup
result stands. -/
def resolveId (players : List (Option Name × PlayerId)) (normalized : Option Name) :
    Option PlayerId :=
  let pid := dictGet players normalized
  if optStrTruthy pid then pid
  else
    match matchPlayer normalized players with
    | some i => some i
    | none => pid

/-- The per-date metrics dict accumulated for the current player block. -/
structure Metrics where
  raw_score : Option PyNum := none
  ranking : Option PyNum := none
  reward : Option PyNum := none
deriving DecidableEq, Repr

/-- Truthiness of `metrics.get(k)`: absent (`None`) and zero are falsy. -/
def optNumTruthy : Option PyNum → Bool
  | none => false
  | some v => v.truthy

/-- The flush guard `metrics.get("raw_score") or metrics.get("ranking") or
metrics.get("reward")`. -/
def metricsTruthy (m : Metrics) : Bool :=
  optNumTruthy m.raw_score || optNumTruthy m.ranking || optNumTruthy m.reward

/-- The output unit appended by the flush loops (lines 100-106, 156-162). -/
structure PerformanceRecord where
  player_id : PlayerId
  match_date : List Char
  raw_score : Option PyNum
  ranking : Option PyNum
  reward : Option PyNum
deriving DecidableEq, Repr

/-- Type of `row_data`: the per-date metrics dict, keyed by ISO date in the order
the dates list first produces each date. -/
abbrev RowData := List (List Char × Metrics)

/-- The flush loop shared by lines 98-106 and 154-162 of `main`: walk
`row_data.items()` and append a record exactly for the dates whose metrics
dict has at least one truthy value. -/
def flushRecords (pid : PlayerId) : RowData → List PerformanceRecord
  | [] => []
  | (date, m) :: rest =>
    if metricsTruthy m then
      { player_id := pid, match_date := date, raw_score := m.raw_score,
        ranking := m.ranking, reward := m.reward } :: flushRecords pid rest
    else flushRecords pid rest

/-- The fresh empty metrics dict `{}`. -/
def emptyMetrics : Metrics := {}

/-- Line 129: `row_data = {date: {} for _, date in dates}` — duplicate dates
collapse to one key at its first position. -/
def initRowData (dates : List (Nat × List Char)) : RowData :=
  dates.foldl (fun rd d =>
    if rd.any (fun p => p.1 == d.2) then
      rd.map (fun p => if p.1 == d.2 then (p.1, emptyMetrics) else p)
    else rd ++ [(d.2, emptyMetrics)]) []

/-- Update `row_data[date][field] = v` for the one entry with that key. -/
def updateRowData (rd : RowData) (date : List Char) (f : Metrics → Metrics) : RowData :=
  rd.map (fun p => if p.1 == date then (p.1, f p.2) else p)

/-- Lines 143-148 of `main`: route a coerced float into the current date's
metrics dict according to the metric type; an unrecognized type stores
nothing. -/
def routeMetric (metric_type : List Char) (q : ℚ) (m : Metrics) : Metrics :=
  if metric_type = "raw score".toList then
    let v := if q = (pyTrunc q : ℚ) then PyNum.pint (pyTrunc q) else PyNum.pfloat (pyRound2 q)
    { m with raw_score := some v }
  else if metric_type = "ranking".toList then
    { m with ranking := some (PyNum.pint (pyTrunc q)) }
  else if metric_type = "reward".toList then
    { m with reward := some (PyNum.pfloat (pyRound2 q)) }
  else m

/-- Lines 139-150 of `main`, one date column: coerce the row's cell at that
column and route it into that column's date; a missing or non-coercible
cell stores nothing and leaves the dict as it was. -/
def applyMetricCell (metric_type : List Char) (row : List Cell) (rd : RowData)
    (cd : Nat × List Char) : RowData :=
  match coerceCell (row.getD cd.1 Cell.nan) with
  | none => rd
  | some q => updateRowData rd cd.2 (routeMetric metric_type q)

/-- Lines 138-150 of `main`: walk every known date column in order,
applying the per-column step. -/
def applyMetricRow (metric_type : List Char) (dates : List (Nat × List Char))
    (row : List Cell) (rd : RowData) : RowData :=
  dates.foldl (applyMetricCell metric_type row) rd

/-- The mutable state of `main`'s row loop. -/
structure LoopState where
  current_player_id : Option PlayerId := none
  row_data : RowData := []
  performance_records : List PerformanceRecord := []
  matched_players : List Name := []
  skipped_players : List Name := []
deriving DecidableEq, Repr

/-- Python set `add`, modelled on a duplicate-free list. -/
def setInsert (s : List Name) (x : Name) : List Name :=
  if s.contains x then s else s ++ [x]

/-- The guarded flush `if current_player_id and row_data:` (lines 97, 153):
the records list after flushing the current block, or unchanged when the id
is falsy or `row_data` is empty. -/
def flushIfNeeded (st : LoopState) : List PerformanceRecord :=
  if optStrTruthy st.current_player_id && !st.row_data.isEmpty then
    st.performance_records ++ flushRecords (st.current_player_id.getD []) st.row_data
  else st.performance_records

/-- Lines 94-129 of `main`: a row whose first cell is present and
strip-nonempty starts a new player block — flush the previous block, resolve
the player id, record matched/skipped, reset `row_data`. -/
def startBlock (players : List (Option Name × PlayerId)) (dates : List (Nat × List Char))
    (st : LoopState) (display : Cell) : LoopState :=
  let records := flushIfNeeded st
  let current_player := pyStrip (pyStr display)
  let normalized := normalize_name (Cell.str current_player)
  let pid := resolveId players normalized
  { current_player_id := pid
    row_data := initRowData dates
    performance_records := records
    matched_players :=
      if optStrTruthy pid then setInsert st.matched_players current_player
      else st.matched_players
    skipped_players :=
      if optStrTruthy pid then st.skipped_players
      else setInsert st.skipped_players current_player }

/-- Lines 91-150 of `main`: one iteration of the row loop — the optional
block start, then the metric-type dispatch and the date-column walk (guarded
by a truthy current player id). -/
def processRow (players : List (Option Name × PlayerId)) (dates : List (Nat × List Char))
    (st : LoopState) (row : List Cell) : LoopState :=
  let display := row.getD 0 Cell.nan
  let st :=
    match display with
    | Cell.nan => st
    | c => if (pyStrip (pyStr c)).isEmpty then st else startBlock players dates st c
  match row.getD 3 Cell.nan with
  | Cell.nan => st
  | mc =>
    let metric_type := pyLower (pyStrip (pyStr mc))
    if optStrTruthy st.current_player_id then
      { st with row_data := applyMetricRow metric_type dates row st.row_data }
    else st

/-- Lines 83-162 of `main`: the whole row loop from row 1 on, followed by
the explicit flush of the last block. -/
def mainRecords (players : List (Option Name × PlayerId)) (dates : List (Nat × List Char))
    (rows : List (List Cell)) : LoopState :=
  let final := rows.foldl (processRow players dates) {}
  { final with performance_records := flushIfNeeded final }

/-- Lines 180-184 of `main`: `performance_records[i:i+200]` for
`i in range(0, len(performance_records), 200)`. -/
def upsertBatches (records : List PerformanceRecord) : List (List PerformanceRecord) :=
  if h : records.isEmpty then [] else records.take 200 :: upsertBatches (records.drop 200)
  termination_by records.length
  decreasing_by
    have h1 : records ≠ [] := by simpa [List.isEmpty_iff] using h
    have h2 : 0 < records.length := List.length_pos.mpr h1
    simp only [List.length_drop]
    omega

/-- The network's answer to one upsert `POST`: a success status from
`urlopen`, or an `HTTPError` carrying a status code and a body. -/
inductive HttpResp
  | ok (status : Nat)
  | httpError (code : Nat) (body : List Char)
deriving DecidableEq, Repr

/-- Function `supabase_upsert` from the source, over an abstract response: returns
the status either way, and on `HTTPError` also the printed line's content —
the code and the body truncated to 200 characters. -/
def supabase_upsert : HttpResp → Nat × Option (Nat × List Char)
  | HttpResp.ok s => (s, none)
  | HttpResp.httpError c b => (c, some (c, b.take 200))

/-- Lines 183-188 of `main`, with each batch paired with the response its
`POST` received: accumulate the inserted count (`+= len(batch)` exactly on
status 200/201) and the error lines printed, processing every batch in
order — no retry, no abort. -/
def runUpsertLoop : List (List PerformanceRecord × HttpResp) → Nat × List (Nat × List Char)
  | [] => (0, [])
  | (b, resp) :: rest =>
    let (status, log) := supabase_upsert resp
    let (insRest, logsRest) := runUpsertLoop rest
    ((if status = 200 || status = 201 then b.length else 0) + insRest,
      match log with
      | none => logsRest
      | some e => e :: logsRest)

/-- Success test of one response, as `main` checks it: status in (200, 201). -/
def isSuccess (r : HttpResp) : Bool :=
  (supabase_upsert r).1 = 200 || (supabase_upsert r).1 = 201

/-- The full upsert phase: batch the records, pair each batch with its
response in call order, and run the loop. -/
def runUpserts (records : List PerformanceRecord) (resps : List HttpResp) :
    Nat × List (Nat × List Char) :=
  runUpsertLoop ((upsertBatches records).zip resps)

/-- Lines 12-18: module init over the two environment lookups. `error`
carries the exit code and the printed lines; `ok` carries the two values the
rest of the script uses. Nothing else runs before this check. -/
def moduleInit (url key : Option (List Char)) :
    Except (Nat × List (List Char)) (List Char × List Char) :=
  if !optStrTruthy url || !optStrTruthy key then
    Except.error (1, ["Error: Missing environment variables".toList,
                      "Run: source .env.local first".toList])
  else Except.ok (url.getD [], key.getD [])

/-! ## Character-level facts -/

/-- Characters are determined by their code points. -/
theorem charEq_iff_toNat {a b : Char} : a = b ↔ a.toNat = b.toNat := by
  constructor
  · intro h; rw [h]
  · intro h; exact Char.eq_of_val_eq (UInt32.toNat.inj h)

/-- Character order is code-point order. -/
theorem charLe_iff_toNat {a b : Char} : a ≤ b ↔ a.toNat ≤ b.toNat := by
  rw [Char.le_def]; exact UInt32.le_def

/-- Code points below 123 round-trip through `Char.ofNat`. -/
theorem toNat_ofNat_lt {n : Nat} (h : n < 123) : (Char.ofNat n).toNat = n := by
  revert h
  revert n
  decide

/-- Digit test in terms of the code point. -/
theorem isDigitChar_iff {c : Char} : isDigitChar c = true ↔ 48 ≤ c.toNat ∧ c.toNat ≤ 57 := by
  simp only [isDigitChar, Bool.and_eq_true, decide_eq_true_eq]
  rw [charLe_iff_toNat, charLe_iff_toNat]
  constructor
  · rintro ⟨h1, h2⟩; exact ⟨h1, h2⟩
  · rintro ⟨h1, h2⟩; exact ⟨h1, h2⟩

/-- Whitespace test in terms of the code point. -/
theorem isSpaceChar_iff {c : Char} :
    isSpaceChar c = true ↔ c.toNat ∈ ([32, 9, 10, 13, 11, 12] : List Nat) := by
  simp only [isSpaceChar, Bool.or_eq_true, decide_eq_true_eq]
  rw [charEq_iff_toNat, charEq_iff_toNat, charEq_iff_toNat, charEq_iff_toNat,
    charEq_iff_toNat, charEq_iff_toNat]
  simp [List.mem_cons]
  tauto

/-- Digits are not whitespace. -/
theorem isSpaceChar_of_digit {c : Char} (h : isDigitChar c = true) : isSpaceChar c = false := by
  rcases isDigitChar_iff.mp h with ⟨h1, h2⟩
  by_contra hs
  have := isSpaceChar_iff.mp (by simpa using hs)
  simp [List.mem_cons] at this
  omega

/-- Digits are not the slash separator. -/
theorem digit_ne_slash {c : Char} (h : isDigitChar c = true) : c ≠ '/' := by
  rcases isDigitChar_iff.mp h with ⟨h1, _⟩
  intro he
  rw [charEq_iff_toNat] at he
  have : ('/' : Char).toNat = 47 := by decide
  omega

/-- Digits are not a sign character. -/
theorem digit_ne_sign {c : Char} (h : isDigitChar c = true) : c ≠ '+' ∧ c ≠ '-' := by
  rcases isDigitChar_iff.mp h with ⟨h1, _⟩
  constructor
  · intro he
    rw [charEq_iff_toNat] at he
    have : ('+' : Char).toNat = 43 := by decide
    omega
  · intro he
    rw [charEq_iff_toNat] at he
    have : ('-' : Char).toNat = 45 := by decide
    omega

/-- Digits are not the underscore. -/
theorem digit_ne_underscore {c : Char} (h : isDigitChar c = true) : c ≠ '_' := by
  rcases isDigitChar_iff.mp h with ⟨_, h2⟩
  intro he
  rw [charEq_iff_toNat] at he
  have : ('_' : Char).toNat = 95 := by decide
  omega

/-- Digit value bound. -/
theorem digit_val_le {c : Char} (h : isDigitChar c = true) : c.toNat - 48 ≤ 9 := by
  rcases isDigitChar_iff.mp h with ⟨_, h2⟩
  omega

/-- Uppercase range in terms of the code point. -/
theorem upperRange_iff {c : Char} :
    ('A' ≤ c && c ≤ 'Z') = true ↔ 65 ≤ c.toNat ∧ c.toNat ≤ 90 := by
  simp only [Bool.and_eq_true, decide_eq_true_eq]
  rw [charLe_iff_toNat, charLe_iff_toNat]
  constructor
  · rintro ⟨h1, h2⟩; exact ⟨h1, h2⟩
  · rintro ⟨h1, h2⟩; exact ⟨h1, h2⟩

/-- Code point of the lowered character. -/
theorem pyLowerChar_toNat (c : Char) :
    (pyLowerChar c).toNat =
      if 65 ≤ c.toNat ∧ c.toNat ≤ 90 then c.toNat + 32 else c.toNat := by
  unfold pyLowerChar
  by_cases h : ('A' ≤ c && c ≤ 'Z') = true
  · rcases upperRange_iff.mp h with ⟨h1, h2⟩
    rw [if_pos h, if_pos ⟨h1, h2⟩]
    exact toNat_ofNat_lt (by omega)
  · have h' := h
    rw [upperRange_iff] at h'
    rw [if_neg h, if_neg h']

/-- Lowercasing is idempotent character by character. -/
theorem pyLowerChar_idem (c : Char) : pyLowerChar (pyLowerChar c) = pyLowerChar c := by
  have hc := pyLowerChar_toNat c
  by_cases h : 65 ≤ c.toNat ∧ c.toNat ≤ 90
  · rw [if_pos h] at hc
    have h2 : ¬(65 ≤ (pyLowerChar c).toNat ∧ (pyLowerChar c).toNat ≤ 90) := by omega
    have := pyLowerChar_toNat (pyLowerChar c)
    rw [if_neg h2] at this
    exact charEq_iff_toNat.mpr this
  · rw [if_neg h] at hc
    have h2 : ¬(65 ≤ (pyLowerChar c).toNat ∧ (pyLowerChar c).toNat ≤ 90) := by omega
    have := pyLowerChar_toNat (pyLowerChar c)
    rw [if_neg h2] at this
    exact charEq_iff_toNat.mpr this

/-- Lowercasing does not create or destroy whitespace. -/
theorem isSpaceChar_pyLowerChar (c : Char) : isSpaceChar (pyLowerChar c) = isSpaceChar c := by
  have hc := pyLowerChar_toNat c
  by_cases h : 65 ≤ c.toNat ∧ c.toNat ≤ 90
  · rw [if_pos h] at hc
    have hlow : isSpaceChar (pyLowerChar c) = false := by
      by_contra hs
      have := isSpaceChar_iff.mp (by simpa using hs)
      simp [List.mem_cons] at this
      omega
    have horig : isSpaceChar c = false := by
      by_contra hs
      have := isSpaceChar_iff.mp (by simpa using hs)
      simp [List.mem_cons] at this
      omega
    rw [hlow, horig]
  · rw [if_neg h] at hc
    congr 1
    exact charEq_iff_toNat.mpr hc

/-! ## Strip and lower -/

/-- A list whose head fails the predicate is fixed by `dropWhile`. -/
theorem dropWhile_eq_self_of {p : Char → Bool} {l : List Char}
    (h : ∀ c t, l = c :: t → p c = false) : l.dropWhile p = l := by
  cases l with
  | nil => rfl
  | cons c t => simp [List.dropWhile_cons, h c t rfl]

/-- The head of `dropWhile p l`, when there is one, fails `p`. -/
theorem dropWhile_head_fails {p : Char → Bool} (l : List Char) :
    ∀ c t, l.dropWhile p = c :: t → p c = false := by
  induction l with
  | nil => intro c t h; simp at h
  | cons d r ih =>
    intro c t h
    by_cases hd : p d
    · rw [List.dropWhile_cons, if_pos hd] at h
      exact ih c t h
    · rw [List.dropWhile_cons, if_neg hd] at h
      cases h
      simpa using hd

/-- Applying `dropWhile` twice is the same as once. -/
theorem dropWhile_idem {p : Char → Bool} (l : List Char) :
    (l.dropWhile p).dropWhile p = l.dropWhile p :=
  dropWhile_eq_self_of (dropWhile_head_fails l)

/-- Stripping is idempotent. -/
theorem pyStrip_idem (s : List Char) : pyStrip (pyStrip s) = pyStrip s := by
  unfold pyStrip
  set p := isSpaceChar with hp
  set u := s.dropWhile p with hu
  set v := u.reverse.dropWhile p with hv
  have hA : v.reverse.dropWhile p = v.reverse := by
    apply dropWhile_eq_self_of
    intro c t hct
    obtain ⟨r, hr⟩ := (List.dropWhile_suffix (l := u.reverse) p).reverse
    rw [← hv] at hr
    rw [List.reverse_reverse] at hr
    have hu' : u = c :: (t ++ r) := by
      rw [← hr, hct]
      simp
    exact dropWhile_head_fails s c (t ++ r) (by rw [← hu, hu'])
  rw [hA, List.reverse_reverse, hv, dropWhile_idem]

/-- Lowercasing is idempotent. -/
theorem pyLower_idem (s : List Char) : pyLower (pyLower s) = pyLower s := by
  unfold pyLower
  rw [List.map_map]
  exact List.map_congr_left (fun c _ => pyLowerChar_idem c)

/-- Lowercasing commutes with stripping. -/
theorem pyStrip_pyLower (s : List Char) : pyStrip (pyLower s) = pyLower (pyStrip s) := by
  have hfun : (isSpaceChar ∘ pyLowerChar) = isSpaceChar := funext isSpaceChar_pyLowerChar
  unfold pyStrip pyLower
  rw [List.dropWhile_map, hfun, ← List.map_reverse, List.dropWhile_map, hfun,
    ← List.map_reverse]

/-- Applying lower-then-strip twice is the same as once. -/
theorem stripLower_idem (t : List Char) :
    pyStrip (pyLower (pyStrip (pyLower t))) = pyStrip (pyLower t) := by
  rw [pyStrip_pyLower, pyStrip_idem, ← pyStrip_pyLower, pyLower_idem]

/-- Feeding the return value of `normalize_name` back in as a Python value:
`None` is NaN-like (`pd.isna(None)` holds), a string stays a string. -/
def optToCell : Option (List Char) → Cell
  | none => Cell.nan
  | some s => Cell.str s

/-! ## Splitting on the slash -/

/-- Splitting a separator-free piece followed by a separator peels that
piece off. -/
theorem splitOnChar_append_sep {sep : Char} {a : List Char} (r : List Char)
    (h : sep ∉ a) : splitOnChar sep (a ++ sep :: r) = a :: splitOnChar sep r := by
  induction a with
  | nil => simp [splitOnChar]
  | cons c a ih =>
    have hc : c ≠ sep := fun he => h (he ▸ List.mem_cons_self c a)
    have ha : sep ∉ a := fun hm => h (List.mem_cons_of_mem c hm)
    have hstep : (c :: a) ++ sep :: r = c :: (a ++ sep :: r) := rfl
    rw [hstep]
    simp only [splitOnChar, List.append_eq, if_neg hc]
    rw [ih ha]

/-- A separator-free string splits into itself alone. -/
theorem splitOnChar_no_sep {sep : Char} {a : List Char} (h : sep ∉ a) :
    splitOnChar sep a = [a] := by
  induction a with
  | nil => rfl
  | cons c a ih =>
    have hc : c ≠ sep := fun he => h (he ▸ List.mem_cons_self c a)
    have ha : sep ∉ a := fun hm => h (List.mem_cons_of_mem c hm)
    simp only [splitOnChar, if_neg hc, ih ha]

/-- A digit string contains no slash. -/
theorem slash_not_mem_digits {a : List Char} (h : ∀ c ∈ a, isDigitChar c = true) :
    '/' ∉ a := fun hm => digit_ne_slash (h _ hm) rfl

/-! ## Python int on digit strings -/

/-- A string of digits is fixed by stripping. -/
theorem pyStrip_digits {a : List Char} (h : ∀ c ∈ a, isDigitChar c = true) :
    pyStrip a = a := by
  unfold pyStrip
  have h1 : a.dropWhile isSpaceChar = a := by
    apply dropWhile_eq_self_of
    intro c t hct
    exact isSpaceChar_of_digit (h c (hct ▸ List.mem_cons_self c t))
  rw [h1]
  have h2 : a.reverse.dropWhile isSpaceChar = a.reverse := by
    apply dropWhile_eq_self_of
    intro c t hct
    have : c ∈ a.reverse := hct ▸ List.mem_cons_self c t
    exact isSpaceChar_of_digit (h c (List.mem_reverse.mp this))
  rw [h2, List.reverse_reverse]

/-- An all-digit string has no underscore pair. -/
theorem noDoubleUnderscore_digits {a : List Char}
    (h : ∀ c ∈ a, isDigitChar c = true) : noDoubleUnderscore a = true := by
  induction a with
  | nil => rfl
  | cons c t ih =>
    have hc : c ≠ '_' := digit_ne_underscore (h c (List.mem_cons_self c t))
    have ht : ∀ d ∈ t, isDigitChar d = true := fun d hd => h d (List.mem_cons_of_mem c hd)
    cases t with
    | nil => rfl
    | cons d r =>
      show (!(decide (c = '_') && decide (d = '_')) && noDoubleUnderscore (d :: r)) = true
      rw [ih ht]
      simp [hc]

/-- A nonempty string of digits passes the `int()` body check. -/
theorem validIntBody_digits {a : List Char} (hne : a ≠ [])
    (h : ∀ c ∈ a, isDigitChar c = true) : validIntBody a = true := by
  unfold validIntBody
  have hweak : a.all (fun c => isDigitChar c || c = '_') = true := by
    rw [List.all_eq_true]
    intro c hc; simp [h c hc]
  have hnd := noDoubleUnderscore_digits h
  cases a with
  | nil => exact absurd rfl hne
  | cons c t =>
    have hhead : isDigitChar ((c :: t).headD '_') = true := h c (List.mem_cons_self c t)
    have hlast : isDigitChar ((c :: t).getLastD '_') = true := by
      have hmem : (c :: t).getLast (by simp) ∈ c :: t := List.getLast_mem (by simp)
      rw [List.getLastD_eq_getLast?, List.getLast?_eq_getLast (c :: t) (by simp)]
      exact h _ hmem
    simp only [List.isEmpty_cons, Bool.not_false, hweak, hhead, hlast, hnd,
      Bool.and_self, Bool.and_true, Bool.true_and]

/-- Function `pyInt` on a nonempty digit string returns its value. -/
theorem pyInt_digits {a : List Char} (hne : a ≠ [])
    (h : ∀ c ∈ a, isDigitChar c = true) : pyInt a = some ((digitsVal a : ℤ)) := by
  have hfilter : a.filter isDigitChar = a := List.filter_eq_self.mpr h
  have hvb := validIntBody_digits hne h
  cases a with
  | nil => exact absurd rfl hne
  | cons c t =>
    have hc : isDigitChar c = true := h c (List.mem_cons_self c t)
    rcases digit_ne_sign hc with ⟨hplus, hminus⟩
    unfold pyInt
    rw [pyStrip_digits h]
    show (if c = '+' then _ else if c = '-' then _ else
      if validIntBody (c :: t) then some ((digitsVal ((c :: t).filter isDigitChar) : ℤ))
      else none) = _
    rw [if_neg hplus, if_neg hminus, hvb, if_pos rfl, hfilter]

/-- Folding digits from any accumulator stays below the positional bound. -/
theorem digitsVal_foldl_lt (a : List Char) (h : ∀ c ∈ a, isDigitChar c = true) :
    ∀ acc : Nat, a.foldl (fun x c => x * 10 + (c.toNat - 48)) acc < (acc + 1) * 10 ^ a.length := by
  induction a with
  | nil => intro acc; simp
  | cons c t ih =>
    intro acc
    have hc := digit_val_le (h c (List.mem_cons_self c t))
    have ht : ∀ d ∈ t, isDigitChar d = true := fun d hd => h d (List.mem_cons_of_mem c hd)
    have step := ih ht (acc * 10 + (c.toNat - 48))
    calc (c :: t).foldl (fun x c => x * 10 + (c.toNat - 48)) acc
        = t.foldl (fun x c => x * 10 + (c.toNat - 48)) (acc * 10 + (c.toNat - 48)) := rfl
      _ < (acc * 10 + (c.toNat - 48) + 1) * 10 ^ t.length := step
      _ ≤ ((acc + 1) * 10) * 10 ^ t.length := by
          apply Nat.mul_le_mul_right
          omega
      _ = (acc + 1) * 10 ^ (c :: t).length := by
          rw [List.length_cons, pow_succ]
          ring

/-- The value of a digit string is below `10 ^ length`. -/
theorem digitsVal_lt {a : List Char} (h : ∀ c ∈ a, isDigitChar c = true) :
    digitsVal a < 10 ^ a.length := by
  have := digitsVal_foldl_lt a h 0
  simpa [digitsVal] using this

/-- With positive fuel, a one-digit number renders as one character. -/
theorem natToDigitsAux_lt10 {fuel n : Nat} (hf : 0 < fuel) (h : n < 10) :
    natToDigitsAux fuel n = [Char.ofNat (48 + n)] := by
  cases fuel with
  | zero => omega
  | succ f =>
    unfold natToDigitsAux
    rw [if_pos h]

/-- A one-digit number renders as one character. -/
theorem natToDigits_lt10 {n : Nat} (h : n < 10) :
    natToDigits n = [Char.ofNat (48 + n)] :=
  natToDigitsAux_lt10 (by omega) h

/-- A two-digit number renders as two characters. -/
theorem natToDigits_len2 {n : Nat} (h1 : 10 ≤ n) (h2 : n < 100) :
    (natToDigits n).length = 2 := by
  unfold natToDigits natToDigitsAux
  rw [if_neg (by omega)]
  rw [natToDigitsAux_lt10 (by omega) (by omega)]
  simp

/-- Rendering `02d` of a value in `[0, 100)` always gives two characters. -/
theorem fmt02d_length {v : ℤ} (h0 : 0 ≤ v) (h1 : v < 100) : (fmt02d v).length = 2 := by
  unfold fmt02d
  rw [if_neg (by omega)]
  by_cases hv : v < 10
  · rw [if_pos hv, natToDigits_lt10 (n := v.toNat) (by omega)]
    rfl
  · rw [if_neg hv]
    exact natToDigits_len2 (by omega) (by omega)

/-! ## Behaviour of parse_date -/

/-- Once the split is known to have three parts, `parse_date` is the
year-fixup and the two `int()` renderings. -/
theorem parse_date_eq_of_split3 {v : Cell} {mo dy yr : List Char}
    (hs : splitOnChar '/' (pyStr v) = [mo, dy, yr]) :
    parse_date v =
      (match pyInt mo, pyInt dy with
        | some mi, some di =>
          some ((if yr.length = 2 then '2' :: '0' :: yr else yr) ++
            '-' :: fmt02d mi ++ '-' :: fmt02d di)
        | _, _ => none) := by
  unfold parse_date
  rw [hs]

/-- A split with other than three parts gives `None`. -/
theorem parse_date_wrong_parts {v : Cell}
    (h : (splitOnChar '/' (pyStr v)).length ≠ 3) : parse_date v = none := by
  unfold parse_date
  generalize hl : splitOnChar '/' (pyStr v) = l at h ⊢
  match l with
  | [] => rfl
  | [a] => rfl
  | [a, b] => rfl
  | [a, b, c] => exact absurd (by simp : ([a, b, c] : List (List Char)).length = 3) h
  | a :: b :: c :: e :: rest => rfl

/-- A non-numeric month gives `None`. -/
theorem parse_date_bad_month {v : Cell} {mo dy yr : List Char}
    (hs : splitOnChar '/' (pyStr v) = [mo, dy, yr]) (hm : pyInt mo = none) :
    parse_date v = none := by
  rw [parse_date_eq_of_split3 hs, hm]

/-- A non-numeric day gives `None`. -/
theorem parse_date_bad_day {v : Cell} {mo dy yr : List Char}
    (hs : splitOnChar '/' (pyStr v) = [mo, dy, yr]) (hd : pyInt dy = none) :
    parse_date v = none := by
  rw [parse_date_eq_of_split3 hs, hd]
  cases hpm : pyInt mo <;> rfl

/-- A numeric month/day slash-triple always parses, year unexamined. -/
theorem parse_date_valid {m d y : List Char} (hm : m ≠ []) (hd : d ≠ [])
    (hmd : ∀ c ∈ m, isDigitChar c = true) (hdd : ∀ c ∈ d, isDigitChar c = true)
    (hyd : '/' ∉ y) :
    parse_date (Cell.str (m ++ '/' :: (d ++ '/' :: y))) =
      some ((if y.length = 2 then '2' :: '0' :: y else y) ++
        '-' :: fmt02d (digitsVal m) ++ '-' :: fmt02d (digitsVal d)) := by
  have hsplit : splitOnChar '/' (pyStr (Cell.str (m ++ '/' :: (d ++ '/' :: y)))) = [m, d, y] := by
    show splitOnChar '/' (m ++ '/' :: (d ++ '/' :: y)) = [m, d, y]
    rw [splitOnChar_append_sep _ (slash_not_mem_digits hmd),
      splitOnChar_append_sep _ (slash_not_mem_digits hdd), splitOnChar_no_sep hyd]
  rw [parse_date_eq_of_split3 hsplit, pyInt_digits hm hmd, pyInt_digits hd hdd]

/-! ## Claim C1 -/

/-- C1, counterexample: the claim says every input with a non-numeric part
returns null, but the year part never goes through `int()`: `"1/2/abcd"` has
the non-numeric part `"abcd"` (so `int()` would fail on it), yet
`parse_date` returns `"abcd-01-02"`, not null. -/
theorem c1_counterexample :
    pyInt ("abcd".toList) = none ∧
    parse_date (Cell.str ("1/2/abcd".toList)) = some ("abcd-01-02".toList) := by
  constructor
  · rfl
  · rfl

/-- C1 as amended: for every valid `M/D/YY` or `M/D/YYYY` string the result
is the ISO string with month and day zero-padded to two digits through
`02d` formatting (two-character years are prefixed with `"20"`); a wrong
part count or a non-numeric month or day yields null; the year part is
never validated and is copied into the output verbatim (after the
two-character prefix rule). -/
theorem c1_parse_date_amended :
    (∀ m d y : List Char, m ≠ [] → d ≠ [] →
      (∀ c ∈ m, isDigitChar c = true) → (∀ c ∈ d, isDigitChar c = true) →
      (∀ c ∈ y, isDigitChar c = true) →
      parse_date (Cell.str (m ++ '/' :: (d ++ '/' :: y))) =
        some ((if y.length = 2 then '2' :: '0' :: y else y) ++
          '-' :: fmt02d (digitsVal m) ++ '-' :: fmt02d (digitsVal d)))
    ∧ (∀ m : List Char, m ≠ [] → m.length ≤ 2 → (∀ c ∈ m, isDigitChar c = true) →
        (fmt02d (digitsVal m)).length = 2)
    ∧ (∀ v : Cell, (splitOnChar '/' (pyStr v)).length ≠ 3 → parse_date v = none)
    ∧ (∀ (v : Cell) (mo dy yr : List Char), splitOnChar '/' (pyStr v) = [mo, dy, yr] →
        pyInt mo = none → parse_date v = none)
    ∧ (∀ (v : Cell) (mo dy yr : List Char), splitOnChar '/' (pyStr v) = [mo, dy, yr] →
        pyInt dy = none → parse_date v = none) := by
  refine ⟨?_, ?_, ?_, ?_, ?_⟩
  · intro m d y hm hd hmd hdd hyd
    exact parse_date_valid hm hd hmd hdd (slash_not_mem_digits hyd)
  · intro m hm hlen hmd
    have hval : digitsVal m < 100 := by
      have h1 := digitsVal_lt hmd
      have h2 : (10 : Nat) ^ m.length ≤ 10 ^ 2 := Nat.pow_le_pow_right (by omega) hlen
      have : (10 : Nat) ^ 2 = 100 := by norm_num
      omega
    exact fmt02d_length (by positivity) (by exact_mod_cast hval)
  · exact fun v h => parse_date_wrong_parts h
  · exact fun v mo dy yr hs hm => parse_date_bad_month hs hm
  · exact fun v mo dy yr hs hd => parse_date_bad_day hs hd

/-- C1 amended, witness: `"3/5/25"` parses to `"2025-03-05"`, by the first
clause of the amended theorem at a concrete input. -/
theorem c1_parse_date_amended_witness :
    parse_date (Cell.str (['3'] ++ '/' :: (['5'] ++ '/' :: ['2', '5']))) =
      some ("2025-03-05".toList) := by
  have h := c1_parse_date_amended.1 ['3'] ['5'] ['2', '5']
    (by decide) (by decide) (by decide) (by decide) (by decide)
  rw [h]
  decide

/-! ## Claim C10 -/

/-- C10: `parse_date` performs no calendar-range validation — any
three-part input with numeric month and day is accepted, whatever the
values; concretely `"13/45/2025"` gives `"2025-13-45"`, and a header cell
holding it becomes a date column `(4, "2025-13-45")`. -/
theorem c10_no_range_validation :
    (∀ (v : Cell) (mo dy yr : List Char) (a b : ℤ),
      splitOnChar '/' (pyStr v) = [mo, dy, yr] →
      pyInt mo = some a → pyInt dy = some b → (parse_date v).isSome = true)
    ∧ parse_date (Cell.str ("13/45/2025".toList)) = some ("2025-13-45".toList)
    ∧ extractDates [Cell.nan, Cell.nan, Cell.nan, Cell.nan,
        Cell.str ("13/45/2025".toList)] = [(4, "2025-13-45".toList)] := by
  refine ⟨?_, by rfl, by rfl⟩
  intro v mo dy yr a b hs ha hb
  rw [parse_date_eq_of_split3 hs, ha, hb]
  rfl

/-- C10, witness: the no-range-validation clause applied at the concrete
split of `"13/45/2025"`. -/
theorem c10_no_range_validation_witness :
    (parse_date (Cell.str ("13/45/2025".toList))).isSome = true :=
  c10_no_range_validation.1 (Cell.str ("13/45/2025".toList))
    ("13".toList) ("45".toList) ("2025".toList) 13 45 (by rfl) (by rfl) (by rfl)

/-! ## Claim C6 -/

/-- C6: `normalize_name` is idempotent — feeding its result back in (with
`None` as a NaN-like missing value) returns the same result, and a missing
input returns `None`. The statement covers every cell value, strings
included. -/
theorem c6_normalize_name_idempotent :
    (∀ c : Cell, normalize_name (optToCell (normalize_name c)) = normalize_name c)
    ∧ normalize_name Cell.nan = none := by
  refine ⟨?_, rfl⟩
  intro c
  cases c with
  | nan => rfl
  | str s =>
    show normalize_name (Cell.str (pyStrip (pyLower s))) = some (pyStrip (pyLower s))
    show some (pyStrip (pyLower (pyStrip (pyLower s)))) = some (pyStrip (pyLower s))
    rw [stripLower_idem]
  | num q =>
    show normalize_name (Cell.str (pyStrip (pyLower (ratToDecimal q)))) =
      some (pyStrip (pyLower (ratToDecimal q)))
    show some (pyStrip (pyLower (pyStrip (pyLower (ratToDecimal q))))) =
      some (pyStrip (pyLower (ratToDecimal q)))
    rw [stripLower_idem]

/-! ## Claims C3 and C4: the fuzzy matcher -/

/-- Inserting an element into a Python set leaves it a member. -/
theorem mem_setInsert_self (s : List Name) (x : Name) : x ∈ setInsert s x := by
  unfold setInsert
  by_cases h : s.contains x
  · rw [if_pos h]
    exact List.mem_of_elem_eq_true h
  · rw [if_neg h]
    exact List.mem_append_right s (List.mem_singleton.mpr rfl)

/-- The fallback loop returns the value of the first candidate passing
`matchCand`, in insertion order. -/
theorem matchPlayer_eq_find (normalized : Option Name)
    (players : List (Option Name × PlayerId)) :
    matchPlayer normalized players =
      (players.find? (matchCand normalized)).map Prod.snd := by
  induction players with
  | nil => rfl
  | cons hd rest ih =>
    obtain ⟨db_name, db_id⟩ := hd
    cases db_name with
    | none =>
      have hcand : matchCand normalized (none, db_id) = false := by
        cases normalized <;> rfl
      rw [List.find?_cons_of_neg _ (by simp [hcand])]
      cases normalized <;> simpa [matchPlayer] using ih
    | some dbn =>
      cases normalized with
      | none =>
        have hcand : matchCand none (some dbn, db_id) = false := rfl
        rw [List.find?_cons_of_neg _ (by simp [hcand])]
        simpa [matchPlayer] using ih
      | some nm =>
        have hmp : matchPlayer (some nm) ((some dbn, db_id) :: rest) =
            (if !dbn.isEmpty && !nm.isEmpty then
              if isSubstr nm dbn || isSubstr dbn nm then some db_id
              else if ((tokenSet nm).filter (fun t => (tokenSet dbn).contains t)).length ≥ 1 &&
                  (tokenSet nm).length ≤ 3 then some db_id
              else matchPlayer (some nm) rest
            else matchPlayer (some nm) rest) := rfl
        have hcand : matchCand (some nm) (some dbn, db_id) =
            (!dbn.isEmpty && !nm.isEmpty &&
              (isSubstr nm dbn || isSubstr dbn nm ||
                (((tokenSet nm).filter (fun t => (tokenSet dbn).contains t)).length ≥ 1 &&
                  (tokenSet nm).length ≤ 3))) := rfl
        rw [hmp]
        by_cases hg : (!dbn.isEmpty && !nm.isEmpty) = true
        · by_cases hA : (isSubstr nm dbn || isSubstr dbn nm) = true
          · have hc : matchCand (some nm) (some dbn, db_id) = true := by
              rw [hcand, hg, hA]; rfl
            rw [List.find?_cons_of_pos _ hc, if_pos hg, if_pos hA]
            rfl
          · have hA' : (isSubstr nm dbn || isSubstr dbn nm) = false := by
              simpa using hA
            by_cases hB : (((tokenSet nm).filter
                (fun t => (tokenSet dbn).contains t)).length ≥ 1 &&
                (tokenSet nm).length ≤ 3) = true
            · have hc : matchCand (some nm) (some dbn, db_id) = true := by
                rw [hcand, hg, hA', hB]; rfl
              rw [List.find?_cons_of_pos _ hc, if_pos hg, if_neg hA, if_pos hB]
              rfl
            · have hB' : (((tokenSet nm).filter
                  (fun t => (tokenSet dbn).contains t)).length ≥ 1 &&
                  (tokenSet nm).length ≤ 3) = false := by
                simpa using hB
              have hc : matchCand (some nm) (some dbn, db_id) = false := by
                rw [hcand, hg, hA', hB']; rfl
              rw [List.find?_cons_of_neg _ (by simp [hc]), if_pos hg, if_neg hA, if_neg hB]
              exact ih
        · have hg' : (!dbn.isEmpty && !nm.isEmpty) = false := by simpa using hg
          have hc : matchCand (some nm) (some dbn, db_id) = false := by
            rw [hcand, hg']; rfl
          rw [List.find?_cons_of_neg _ (by simp [hc]), if_neg hg]
          exact ih

/-- When the exact lookup is falsy and the loop finds nothing, the id stays
the falsy lookup result. -/
theorem resolveId_of_no_match {players : List (Option Name × PlayerId)}
    {normalized : Option Name}
    (h1 : optStrTruthy (dictGet players normalized) = false)
    (h2 : matchPlayer normalized players = none) :
    resolveId players normalized = dictGet players normalized := by
  simp only [resolveId, h1, h2, Bool.false_eq_true, if_false]

/-- C3, counterexample: the claim's fallback rule (a) holds for an
empty-string candidate against input `"abc"` (the empty string is a
substring of everything, in either-direction containment), it is the first
and only candidate, and there is no exact match — yet the matcher assigns
nothing, because a truthiness guard in the code skips falsy candidate keys
before the rules are ever tried. -/
theorem c3_counterexample :
    dictGet [(some [], "idE".toList)] (some ("abc".toList)) = none ∧
    isSubstr [] ("abc".toList) = true ∧
    matchPlayer (some ("abc".toList)) [(some [], "idE".toList)] = none := by
  refine ⟨rfl, rfl, rfl⟩

/-- C3 as amended: the matcher iterates the map in insertion order,
first skipping every candidate whose key is null or empty (and doing
nothing at all when the normalized input is null or empty); among the
remaining candidates the first one satisfying substring containment in
either direction, or sharing a token with an input of at most 3 distinct
tokens, wins — exactly `List.find?` over `matchCand`. When the exact lookup
was falsy and no candidate matches, the stripped name lands in the skipped
set. -/
theorem c3_first_match_amended :
    (∀ (normalized : Option Name) (players : List (Option Name × PlayerId)),
      matchPlayer normalized players = (players.find? (matchCand normalized)).map Prod.snd)
    ∧ (∀ (players : List (Option Name × PlayerId)) (dates : List (Nat × List Char))
        (st : LoopState) (c : Cell),
        optStrTruthy (dictGet players (normalize_name (Cell.str (pyStrip (pyStr c))))) = false →
        matchPlayer (normalize_name (Cell.str (pyStrip (pyStr c)))) players = none →
        pyStrip (pyStr c) ∈ (startBlock players dates st c).skipped_players) := by
  constructor
  · exact matchPlayer_eq_find
  · intro players dates st c h1 h2
    unfold startBlock
    simp only [resolveId_of_no_match h1 h2, h1, Bool.false_eq_true, if_false]
    exact mem_setInsert_self st.skipped_players (pyStrip (pyStr c))

/-- C3 amended, witness: with a registry holding only `"zed"` and input
`"abc"` (no exact match, no candidate passes either rule), the block step
records `"abc"` as skipped. -/
theorem c3_first_match_amended_witness :
    ("abc".toList) ∈ (startBlock [(some ("zed".toList), "id9".toList)] []
      { } (Cell.str ("abc".toList))).skipped_players := by
  have h := c3_first_match_amended.2 [(some ("zed".toList), "id9".toList)] []
    { } (Cell.str ("abc".toList)) (by decide) (by decide)
  simpa using h

/-- C4, counterexample: the claim (following the spec) treats
`"alexander hughes-mcdonald-smith-jones"` as a 5-token input, but tokens
are whitespace-delimited, so it has exactly 2 — within the ≤ 3 limit — and
a registry entry sharing the single token `"alexander"` (with no substring
containment either way) does match it via the token-overlap rule instead of
being skipped. -/
theorem c4_counterexample :
    (tokenSet ("alexander hughes-mcdonald-smith-jones".toList)).length = 2 ∧
    isSubstr ("alexander hughes-mcdonald-smith-jones".toList)
      ("alexander pope".toList) = false ∧
    isSubstr ("alexander pope".toList)
      ("alexander hughes-mcdonald-smith-jones".toList) = false ∧
    ((tokenSet ("alexander hughes-mcdonald-smith-jones".toList)).filter
      (fun t => (tokenSet ("alexander pope".toList)).contains t)).length = 1 ∧
    matchPlayer (some ("alexander hughes-mcdonald-smith-jones".toList))
      [(some ("alexander pope".toList), "id2".toList)] = some ("id2".toList) := by
  refine ⟨rfl, by decide, by decide, by decide, by decide⟩

/-- C4 as amended: the token-overlap rule applies only to inputs with at
most 3 distinct whitespace tokens. Input `"jon smith"` against a registry
holding only `"john smith"` matches (no containment, shared token
`"smith"`, 2 tokens). The hyphenated name of the original claim has only 2
whitespace tokens, so a genuinely 5-token input
`"alexander hughes mcdonald smith jones"` is used instead: sharing one
token with `"alexander pope"` and with no containment, it does not match
and the block step records it as skipped. -/
theorem c4_token_limit_amended :
    (isSubstr ("jon smith".toList) ("john smith".toList) = false ∧
      isSubstr ("john smith".toList) ("jon smith".toList) = false ∧
      ((tokenSet ("jon smith".toList)).filter
        (fun t => (tokenSet ("john smith".toList)).contains t)).length = 1 ∧
      (tokenSet ("jon smith".toList)).length = 2 ∧
      matchPlayer (some ("jon smith".toList))
        [(some ("john smith".toList), "id1".toList)] = some ("id1".toList))
    ∧ ((tokenSet ("alexander hughes mcdonald smith jones".toList)).length = 5 ∧
      ((tokenSet ("alexander hughes mcdonald smith jones".toList)).filter
        (fun t => (tokenSet ("alexander pope".toList)).contains t)).length = 1 ∧
      isSubstr ("alexander hughes mcdonald smith jones".toList)
        ("alexander pope".toList) = false ∧
      isSubstr ("alexander pope".toList)
        ("alexander hughes mcdonald smith jones".toList) = false ∧
      matchPlayer (some ("alexander hughes mcdonald smith jones".toList))
        [(some ("alexander pope".toList), "id2".toList)] = none ∧
      (startBlock [(some ("alexander pope".toList), "id2".toList)] [] { }
        (Cell.str ("alexander hughes mcdonald smith jones".toList))).skipped_players =
        ["alexander hughes mcdonald smith jones".toList]) := by
  refine ⟨⟨by decide, by decide, by decide, rfl, by decide⟩,
    ⟨rfl, by decide, by decide, by decide, by decide, by decide⟩⟩

/-! ## Claim C2: the flush invariant -/

/-- Unfolding one step of the flush loop. -/
theorem flushRecords_cons (pid : PlayerId) (d0 : List Char) (m0 : Metrics) (rest : RowData) :
    flushRecords pid ((d0, m0) :: rest) =
      if metricsTruthy m0 = true then
        { player_id := pid, match_date := d0, raw_score := m0.raw_score,
          ranking := m0.ranking, reward := m0.reward } :: flushRecords pid rest
      else flushRecords pid rest := rfl

/-- Every flushed record's date is a key of the flushed dict. -/
theorem flushRecords_dates {pid : PlayerId} {rd : RowData} {r : PerformanceRecord}
    (h : r ∈ flushRecords pid rd) : r.match_date ∈ rd.map Prod.fst := by
  induction rd with
  | nil => simpa [flushRecords] using h
  | cons hd rest ih =>
    obtain ⟨d0, m0⟩ := hd
    by_cases ht : metricsTruthy m0 = true
    · rw [flushRecords_cons, if_pos ht] at h
      rcases List.mem_cons.mp h with h | h
      · rw [h]
        exact List.mem_cons_self _ _
      · exact List.mem_cons_of_mem _ (ih h)
    · rw [flushRecords_cons, if_neg ht] at h
      exact List.mem_cons_of_mem _ (ih h)

/-- C2: under distinct date keys, a record for a date is flushed exactly
when that date's metrics dict has a truthy value — and the flush used at
the start of the next block and the flush after the row loop are both the
guarded `flushIfNeeded` appending `flushRecords` to the record list. -/
theorem c2_flush_iff_truthy :
    (∀ (pid : PlayerId) (rd : RowData), (rd.map Prod.fst).Nodup →
      ∀ date m, (date, m) ∈ rd →
        (metricsTruthy m = true →
          { player_id := pid, match_date := date, raw_score := m.raw_score,
            ranking := m.ranking, reward := m.reward } ∈ flushRecords pid rd)
        ∧ (metricsTruthy m = false →
            ∀ r ∈ flushRecords pid rd, r.match_date ≠ date))
    ∧ (∀ st : LoopState, optStrTruthy st.current_player_id = true →
        st.row_data.isEmpty = false →
        flushIfNeeded st = st.performance_records ++
          flushRecords (st.current_player_id.getD []) st.row_data)
    ∧ (∀ players dates st c,
        (startBlock players dates st c).performance_records = flushIfNeeded st)
    ∧ (∀ players dates rows,
        (mainRecords players dates rows).performance_records =
          flushIfNeeded (rows.foldl (processRow players dates) { })) := by
  refine ⟨?_, ?_, fun _ _ _ _ => rfl, fun _ _ _ => rfl⟩
  · intro pid rd hnd date m hmem
    induction rd with
    | nil => simp at hmem
    | cons hd rest ih =>
      obtain ⟨d0, m0⟩ := hd
      have hnd' : (rest.map Prod.fst).Nodup := (List.nodup_cons.mp hnd).2
      have hd0 : d0 ∉ rest.map Prod.fst := (List.nodup_cons.mp hnd).1
      rcases List.mem_cons.mp hmem with heq | hmem'
      · injection heq with hdate hm
        subst hdate
        subst hm
        constructor
        · intro ht
          rw [flushRecords_cons, if_pos ht]
          exact List.mem_cons_self _ _
        · intro ht r hr
          rw [flushRecords_cons, if_neg (by simp [ht])] at hr
          intro hcontra
          exact hd0 (hcontra ▸ flushRecords_dates hr)
      · have hdmem : date ∈ rest.map Prod.fst :=
          List.mem_map.mpr ⟨(date, m), hmem', rfl⟩
        have hne : date ≠ d0 := fun he => hd0 (he ▸ hdmem)
        have ihr := ih hnd' hmem'
        by_cases ht0 : metricsTruthy m0 = true
        · rw [flushRecords_cons, if_pos ht0]
          constructor
          · intro ht
            exact List.mem_cons_of_mem _ (ihr.1 ht)
          · intro ht r hr
            rcases List.mem_cons.mp hr with hr0 | hr'
            · rw [hr0]
              exact fun he => hne (he.symm)
            · exact ihr.2 ht r hr'
        · rw [flushRecords_cons, if_neg ht0]
          exact ihr
  · intro st h1 h2
    unfold flushIfNeeded
    rw [h1, h2]
    rfl

/-- C2, witness: the flush-iff-truthy invariant applied to a concrete
one-date dict holding a truthy raw score. -/
theorem c2_flush_iff_truthy_witness :
    { player_id := "p".toList, match_date := "2025-01-01".toList,
      raw_score := some (PyNum.pint 85), ranking := none,
      reward := none : PerformanceRecord } ∈
      flushRecords ("p".toList)
        [("2025-01-01".toList,
          { raw_score := some (PyNum.pint 85), ranking := none, reward := none })] :=
  (c2_flush_iff_truthy.1 ("p".toList)
    [("2025-01-01".toList,
      { raw_score := some (PyNum.pint 85), ranking := none, reward := none })]
    (by decide) ("2025-01-01".toList)
    { raw_score := some (PyNum.pint 85), ranking := none, reward := none }
    (by simp)).1 (by decide)

/-! ## Claim C5: metric routing -/

/-- Truncation toward zero fixes integers. -/
theorem pyTrunc_intCast (n : ℤ) : pyTrunc ((n : ℚ)) = n := by
  unfold pyTrunc
  by_cases h : (0 : ℚ) ≤ (n : ℚ)
  · rw [if_pos h, Int.floor_intCast]
  · rw [if_neg h, ← Int.cast_neg, Int.floor_intCast]
    omega

/-- A rational with denominator one equals the cast of its truncation. -/
theorem eq_trunc_of_den_one {q : ℚ} (h : q.den = 1) : q = ((pyTrunc q : ℤ) : ℚ) := by
  have hq : (q.num : ℚ) = q := (Rat.den_eq_one_iff q).mp h
  rw [← hq, pyTrunc_intCast]

/-- A rational with denominator other than one differs from every integer
cast, in particular from its truncation. -/
theorem ne_trunc_of_den_ne_one {q : ℚ} (h : q.den ≠ 1) : q ≠ ((pyTrunc q : ℤ) : ℚ) := by
  intro he
  exact h (he ▸ Rat.den_intCast (pyTrunc q))

/-- Model fidelity of `float()` to PEP 515: underscore digit separators
are accepted exactly where Python accepts them, such a cell coerces, and
its value is stored — it is not skipped. -/
theorem pyFloat_pep515 :
    pyFloat ("1_0".toList) = some 10 ∧
    pyFloat ("1_000.5".toList) = some (2001 / 2) ∧
    pyFloat ("_1".toList) = none ∧
    pyFloat ("1__0".toList) = none ∧
    pyFloat ("1_".toList) = none ∧
    coerceCell (Cell.str ("1_0".toList)) = some 10 ∧
    applyMetricCell ("ranking".toList)
      [Cell.nan, Cell.nan, Cell.nan, Cell.nan, Cell.str ("1_0".toList)]
      [("2025-01-01".toList, emptyMetrics)] (4, "2025-01-01".toList) =
      [("2025-01-01".toList,
        { raw_score := none, ranking := some (PyNum.pint 10), reward := none })] := by
  refine ⟨by decide, by decide, by decide, by decide, by decide, by decide, by decide⟩

/-- A non-coercible cell leaves the dict untouched at its own step,
whatever the other columns of the row hold. -/
theorem applyMetricCell_none {metric_type : List Char} {row : List Cell} {rd : RowData}
    {cd : Nat × List Char} (h : coerceCell (row.getD cd.1 Cell.nan) = none) :
    applyMetricCell metric_type row rd cd = rd := by
  unfold applyMetricCell
  rw [h]

/-- Unfolding one entry of the in-place dict update. -/
theorem updateRowData_cons (k : List Char) (v : Metrics) (rest : RowData)
    (key : List Char) (f : Metrics → Metrics) :
    updateRowData ((k, v) :: rest) key f =
      (if k == key then (k, f v) else (k, v)) :: updateRowData rest key f := rfl

/-- Updating one date's entry does not disturb any other date's entry. -/
theorem find_updateRowData_ne {rd : RowData} {key date : List Char}
    {f : Metrics → Metrics} (h : key ≠ date) :
    (updateRowData rd key f).find? (fun p => p.1 == date) =
      rd.find? (fun p => p.1 == date) := by
  induction rd with
  | nil => rfl
  | cons e rest ih =>
    obtain ⟨k, v⟩ := e
    rw [updateRowData_cons]
    by_cases hk : (k == key) = true
    · have hkey : k = key := by simpa using hk
      have hkd : ¬((k == date) = true) := by
        simp only [beq_iff_eq, hkey]
        exact h
      have hkd1 : ¬((fun (p : List Char × Metrics) => p.1 == date) (k, f v) = true) := by
        simpa using hkd
      have hkd2 : ¬((fun (p : List Char × Metrics) => p.1 == date) (k, v) = true) := by
        simpa using hkd
      rw [if_pos hk,
        @List.find?_cons_of_neg _ (fun p => p.1 == date) (k, f v)
          (updateRowData rest key f) hkd1,
        @List.find?_cons_of_neg _ (fun p => p.1 == date) (k, v) rest hkd2, ih]
    · rw [if_neg hk]
      by_cases hd2 : ((k == date) = true)
      · have hp : ((fun (p : List Char × Metrics) => p.1 == date) (k, v)) = true := by
          simpa using hd2
        rw [@List.find?_cons_of_pos _ (fun p => p.1 == date) (k, v)
            (updateRowData rest key f) hp,
          @List.find?_cons_of_pos _ (fun p => p.1 == date) (k, v) rest hp]
      · have hn : ¬((fun (p : List Char × Metrics) => p.1 == date) (k, v) = true) := by
          simpa using hd2
        rw [@List.find?_cons_of_neg _ (fun p => p.1 == date) (k, v)
            (updateRowData rest key f) hn,
          @List.find?_cons_of_neg _ (fun p => p.1 == date) (k, v) rest hn, ih]

/-- When every column carrying a given date fails to coerce, the row walk
leaves that date's entry untouched, even while sibling columns store
their values. -/
theorem applyMetricRow_find_skip (metric_type : List Char)
    (dates : List (Nat × List Char)) (row : List Cell) (rd : RowData)
    (date : List Char)
    (h : ∀ cd ∈ dates, cd.2 = date → coerceCell (row.getD cd.1 Cell.nan) = none) :
    (applyMetricRow metric_type dates row rd).find? (fun p => p.1 == date) =
      rd.find? (fun p => p.1 == date) := by
  revert h
  induction dates generalizing rd with
  | nil => intro h; rfl
  | cons cd rest ih =>
    intro h
    have hrest : ∀ cd ∈ rest, cd.2 = date → coerceCell (row.getD cd.1 Cell.nan) = none :=
      fun cd hc => h cd (List.mem_cons_of_mem _ hc)
    have hstep : applyMetricRow metric_type (cd :: rest) row rd =
        applyMetricRow metric_type rest row (applyMetricCell metric_type row rd cd) := rfl
    rw [hstep]
    by_cases hd : cd.2 = date
    · rw [applyMetricCell_none (h cd (List.mem_cons_self cd rest) hd)]
      exact ih rd hrest
    · cases hc : coerceCell (row.getD cd.1 Cell.nan) with
      | none =>
        rw [applyMetricCell_none hc]
        exact ih rd hrest
      | some q =>
        have hcell : applyMetricCell metric_type row rd cd =
            updateRowData rd cd.2 (routeMetric metric_type q) := by
          unfold applyMetricCell
          rw [hc]
        rw [hcell, ih _ hrest, find_updateRowData_ne hd]

/-- C5: a numeric cell routes by metric type — a `"raw score"` with no
fractional part (denominator one) is stored as the integer itself, one
with a fractional part as the float rounded to 2 decimals; `"ranking"` is
stored as the toward-zero truncated integer; `"reward"` as the float
rounded to 2 decimals. Skipping is per cell: a missing or non-coercible
cell stores nothing at its own step whatever the sibling cells hold, a
date all of whose columns fail to coerce keeps its entry unchanged
through the whole row walk, and a row whose cells all fail leaves the
dict unchanged entirely. -/
theorem c5_metric_routing :
    (∀ (q : ℚ) (m : Metrics), q.den = 1 →
      (routeMetric ("raw score".toList) q m).raw_score = some (PyNum.pint (pyTrunc q)))
    ∧ (∀ (q : ℚ) (m : Metrics), q.den ≠ 1 →
      (routeMetric ("raw score".toList) q m).raw_score = some (PyNum.pfloat (pyRound2 q)))
    ∧ (∀ (q : ℚ) (m : Metrics),
      (routeMetric ("ranking".toList) q m).ranking = some (PyNum.pint (pyTrunc q)))
    ∧ (∀ (q : ℚ) (m : Metrics),
      (routeMetric ("reward".toList) q m).reward = some (PyNum.pfloat (pyRound2 q)))
    ∧ (∀ (metric_type : List Char) (row : List Cell) (rd : RowData)
        (cd : Nat × List Char),
        coerceCell (row.getD cd.1 Cell.nan) = none →
        applyMetricCell metric_type row rd cd = rd)
    ∧ (∀ (metric_type : List Char) (dates : List (Nat × List Char))
        (row : List Cell) (rd : RowData) (date : List Char),
        (∀ cd ∈ dates, cd.2 = date → coerceCell (row.getD cd.1 Cell.nan) = none) →
        (applyMetricRow metric_type dates row rd).find? (fun p => p.1 == date) =
          rd.find? (fun p => p.1 == date))
    ∧ (∀ (metric_type : List Char) (dates : List (Nat × List Char))
        (row : List Cell) (rd : RowData),
        (∀ cd ∈ dates, coerceCell (row.getD cd.1 Cell.nan) = none) →
        applyMetricRow metric_type dates row rd = rd) := by
  refine ⟨?_, ?_, ?_, ?_, ?_, ?_, ?_⟩
  · intro q m h
    unfold routeMetric
    rw [if_pos rfl, if_pos (eq_trunc_of_den_one h)]
  · intro q m h
    unfold routeMetric
    rw [if_pos rfl, if_neg (ne_trunc_of_den_ne_one h)]
  · intro q m
    unfold routeMetric
    rw [if_neg (by decide), if_pos rfl]
  · intro q m
    unfold routeMetric
    rw [if_neg (by decide), if_neg (by decide), if_pos rfl]
  · intro metric_type row rd cd h
    exact applyMetricCell_none h
  · intro metric_type dates row rd date h
    exact applyMetricRow_find_skip metric_type dates row rd date h
  · intro metric_type dates row rd h
    induction dates with
    | nil => rfl
    | cons cd rest ih =>
      have hcd := h cd (List.mem_cons_self cd rest)
      have hrest : ∀ cd ∈ rest, coerceCell (row.getD cd.1 Cell.nan) = none :=
        fun cd hc => h cd (List.mem_cons_of_mem _ hc)
      have hstep : applyMetricRow metric_type (cd :: rest) row rd =
          applyMetricRow metric_type rest row (applyMetricCell metric_type row rd cd) := rfl
      rw [hstep, applyMetricCell_none hcd]
      exact ih hrest

/-- C5, witness: `85.0` is stored as the integer `85`, `85.5` as the float
`85.5`, a ranking `3.5` as the truncated integer `3`, a reward `10.067`
as `10.07`; a non-numeric cell `"abc"` stores nothing at its own step
even though a sibling column holds the numeric `7`, and its date's entry
survives the whole row walk unchanged; an all-NaN row stores nothing. -/
theorem c5_metric_routing_witness :
    (routeMetric ("raw score".toList) 85 emptyMetrics).raw_score =
      some (PyNum.pint 85) ∧
    (routeMetric ("raw score".toList) (171 / 2) emptyMetrics).raw_score =
      some (PyNum.pfloat (171 / 2)) ∧
    (routeMetric ("ranking".toList) (7 / 2) emptyMetrics).ranking =
      some (PyNum.pint 3) ∧
    (routeMetric ("reward".toList) (10067 / 1000) emptyMetrics).reward =
      some (PyNum.pfloat (1007 / 100)) ∧
    applyMetricCell ("ranking".toList)
      [Cell.nan, Cell.nan, Cell.nan, Cell.nan, Cell.str ("abc".toList), Cell.num 7]
      [("2025-01-01".toList, emptyMetrics), ("2025-01-02".toList, emptyMetrics)]
      (4, "2025-01-01".toList) =
      [("2025-01-01".toList, emptyMetrics), ("2025-01-02".toList, emptyMetrics)] ∧
    (applyMetricRow ("ranking".toList)
      [(4, "2025-01-01".toList), (5, "2025-01-02".toList)]
      [Cell.nan, Cell.nan, Cell.nan, Cell.nan, Cell.str ("abc".toList), Cell.num 7]
      [("2025-01-01".toList, emptyMetrics), ("2025-01-02".toList, emptyMetrics)]).find?
        (fun p => p.1 == "2025-01-01".toList) =
      ([("2025-01-01".toList, emptyMetrics), ("2025-01-02".toList, emptyMetrics)]).find?
        (fun p => p.1 == "2025-01-01".toList) ∧
    applyMetricRow ("raw score".toList) [(4, "2025-01-01".toList)] [Cell.nan]
      [("2025-01-01".toList, emptyMetrics)] = [("2025-01-01".toList, emptyMetrics)] := by
  refine ⟨?_, ?_, ?_, ?_, ?_, ?_, ?_⟩
  · rw [c5_metric_routing.1 85 emptyMetrics (by decide)]
    decide
  · rw [c5_metric_routing.2.1 (171 / 2) emptyMetrics (by decide)]
    decide
  · rw [c5_metric_routing.2.2.1 (7 / 2) emptyMetrics]
    decide
  · rw [c5_metric_routing.2.2.2.1 (10067 / 1000) emptyMetrics]
    decide
  · exact c5_metric_routing.2.2.2.2.1 ("ranking".toList)
      [Cell.nan, Cell.nan, Cell.nan, Cell.nan, Cell.str ("abc".toList), Cell.num 7]
      [("2025-01-01".toList, emptyMetrics), ("2025-01-02".toList, emptyMetrics)]
      (4, "2025-01-01".toList) (by decide)
  · exact c5_metric_routing.2.2.2.2.2.1 ("ranking".toList)
      [(4, "2025-01-01".toList), (5, "2025-01-02".toList)]
      [Cell.nan, Cell.nan, Cell.nan, Cell.nan, Cell.str ("abc".toList), Cell.num 7]
      [("2025-01-01".toList, emptyMetrics), ("2025-01-02".toList, emptyMetrics)]
      ("2025-01-01".toList) (by decide)
  · exact c5_metric_routing.2.2.2.2.2.2 ("raw score".toList) [(4, "2025-01-01".toList)]
      [Cell.nan] [("2025-01-01".toList, emptyMetrics)] (by decide)

/-! ## Claim C7: batching -/

/-- Unfolding equation of the batch loop with a plain conditional. -/
theorem upsertBatches_eq (l : List PerformanceRecord) :
    upsertBatches l = if l.isEmpty then [] else l.take 200 :: upsertBatches (l.drop 200) := by
  rw [upsertBatches.eq_def]
  by_cases h : l.isEmpty
  · rw [dif_pos h, if_pos h]
  · rw [dif_neg h, if_neg h]

/-- A nonempty list has a nonempty batch list. -/
theorem upsertBatches_eq_nil_iff (l : List PerformanceRecord) :
    upsertBatches l = [] ↔ l = [] := by
  rw [upsertBatches_eq]
  by_cases h : l.isEmpty
  · simp [List.isEmpty_iff.mp h]
  · have h1 : l ≠ [] := by simpa [List.isEmpty_iff] using h
    simp [h, h1]

/-- Concatenating the batches gives back the record list in order. -/
theorem upsertBatches_flatten (l : List PerformanceRecord) : (upsertBatches l).flatten = l := by
  rw [upsertBatches_eq]
  by_cases h : l.isEmpty
  · rw [if_pos h]
    simp [List.isEmpty_iff.mp h]
  · rw [if_neg h, List.flatten_cons, upsertBatches_flatten (l.drop 200), List.take_append_drop]
termination_by l.length
decreasing_by
  have h1 : l ≠ [] := by simpa [List.isEmpty_iff] using h
  have h2 : 0 < l.length := List.length_pos.mpr h1
  simp only [List.length_drop]
  omega

/-- Every batch is nonempty and holds at most 200 records. -/
theorem upsertBatches_sizes (l : List PerformanceRecord) :
    ∀ b ∈ upsertBatches l, b ≠ [] ∧ b.length ≤ 200 := by
  rw [upsertBatches_eq]
  by_cases h : l.isEmpty
  · rw [if_pos h]
    intro b hb
    simp at hb
  · rw [if_neg h]
    intro b hb
    rcases List.mem_cons.mp hb with hb | hb
    · subst hb
      have h1 : l ≠ [] := by simpa [List.isEmpty_iff] using h
      constructor
      · intro hnil
        have hlen := congrArg List.length hnil
        rw [List.length_take] at hlen
        have h2 : 0 < l.length := List.length_pos.mpr h1
        simp only [List.length_nil] at hlen
        omega
      · exact List.length_take_le 200 l
    · exact upsertBatches_sizes (l.drop 200) b hb
termination_by l.length
decreasing_by
  have h1 : l ≠ [] := by simpa [List.isEmpty_iff] using h
  have h2 : 0 < l.length := List.length_pos.mpr h1
  simp only [List.length_drop]
  omega

/-- Every batch except possibly the last holds exactly 200 records. -/
theorem upsertBatches_full (l : List PerformanceRecord) :
    ∀ b ∈ (upsertBatches l).dropLast, b.length = 200 := by
  rw [upsertBatches_eq]
  by_cases h : l.isEmpty
  · rw [if_pos h]
    intro b hb
    simp at hb
  · rw [if_neg h]
    cases hrec : upsertBatches (l.drop 200) with
    | nil =>
      intro b hb
      simp [hrec] at hb
    | cons b2 rest =>
      intro b hb
      rw [List.dropLast_cons₂] at hb
      rcases List.mem_cons.mp hb with hb | hb
      · subst hb
        have hd : l.drop 200 ≠ [] := by
          intro hc
          rw [hc] at hrec
          rw [show upsertBatches [] = [] from (upsertBatches_eq_nil_iff []).mpr rfl] at hrec
          exact List.noConfusion hrec
        have hlen : 200 < l.length := by
          by_contra hc
          exact hd (List.drop_eq_nil_of_le (by omega))
        rw [List.length_take]
        omega
      · exact upsertBatches_full (l.drop 200) b (by rw [hrec]; exact hb)
termination_by l.length
decreasing_by
  have h1 : l ≠ [] := by simpa [List.isEmpty_iff] using h
  have h2 : 0 < l.length := List.length_pos.mpr h1
  simp only [List.length_drop]
  omega

/-- Nonemptiness of the batch list survives into `isEmpty`. -/
theorem isEmpty_ne_of_length {m : List PerformanceRecord} (h : m.length ≠ 0) :
    ¬m.isEmpty = true := by
  intro hc
  exact h (by simp [List.isEmpty_iff.mp hc])

/-- C7: the upsert loop splits the record list into consecutive chunks in
order (their concatenation is the list), every chunk is nonempty with at
most 200 records, every chunk but the last has exactly 200, and 450
records produce exactly the three batch sizes 200, 200, 50. -/
theorem c7_batching :
    (∀ l : List PerformanceRecord, (upsertBatches l).flatten = l)
    ∧ (∀ l : List PerformanceRecord, ∀ b ∈ upsertBatches l, b ≠ [] ∧ b.length ≤ 200)
    ∧ (∀ l : List PerformanceRecord, ∀ b ∈ (upsertBatches l).dropLast, b.length = 200)
    ∧ (∀ l : List PerformanceRecord, l.length = 450 →
        (upsertBatches l).map List.length = [200, 200, 50]) := by
  refine ⟨upsertBatches_flatten, upsertBatches_sizes, upsertBatches_full, ?_⟩
  intro l h
  have l1 : (l.drop 200).length = 250 := by rw [List.length_drop, h]
  have l2 : ((l.drop 200).drop 200).length = 50 := by rw [List.length_drop, l1]
  have l3 : (((l.drop 200).drop 200).drop 200) = [] :=
    List.drop_eq_nil_of_le (by omega)
  rw [upsertBatches_eq, if_neg (isEmpty_ne_of_length (by omega)),
    upsertBatches_eq, if_neg (isEmpty_ne_of_length (by omega)),
    upsertBatches_eq, if_neg (isEmpty_ne_of_length (by omega)),
    upsertBatches_eq, if_pos (by rw [l3]; rfl)]
  simp only [List.map_cons, List.map_nil, List.length_take, List.length_drop, h]
  norm_num

/-- C7, witness: 450 concrete records produce batches of sizes
200, 200, 50. -/
theorem c7_batching_witness :
    (upsertBatches (List.replicate 450
      ({ player_id := [], match_date := [], raw_score := none,
         ranking := none, reward := none }))).map List.length = [200, 200, 50] :=
  c7_batching.2.2.2 _ (by rw [List.length_replicate])

/-! ## Claim C8: upsert error handling -/

/-- C8: processing every batch in order, the final inserted count is the
sum of the sizes of exactly the batches whose status was 200 or 201; each
batch whose `POST` raised an `HTTPError` contributes one printed line
holding its status code and its body truncated to 200 characters; and
`supabase_upsert` on an error response returns the code and that truncated
line. -/
theorem c8_upsert_error_handling :
    (∀ bs : List (List PerformanceRecord × HttpResp),
      (runUpsertLoop bs).1 =
        ((bs.filter (fun p => isSuccess p.2)).map (fun p => p.1.length)).sum)
    ∧ (∀ bs : List (List PerformanceRecord × HttpResp),
      (runUpsertLoop bs).2 = bs.filterMap (fun p => (supabase_upsert p.2).2))
    ∧ (∀ (c : Nat) (body : List Char),
      supabase_upsert (HttpResp.httpError c body) = (c, some (c, body.take 200)))
    ∧ (∀ (records : List PerformanceRecord) (resps : List HttpResp),
      runUpserts records resps = runUpsertLoop ((upsertBatches records).zip resps)) := by
  refine ⟨?_, ?_, fun c body => rfl, fun records resps => rfl⟩
  · intro bs
    induction bs with
    | nil => rfl
    | cons p rest ih =>
      obtain ⟨b, resp⟩ := p
      cases resp with
      | ok s =>
        show (if s = 200 || s = 201 then b.length else 0) + (runUpsertLoop rest).1 = _
        by_cases hs : (s = 200 || s = 201) = true
        · rw [if_pos hs, List.filter_cons_of_pos (by simpa [isSuccess, supabase_upsert] using hs)]
          rw [List.map_cons, List.sum_cons, ih]
        · rw [if_neg hs, List.filter_cons_of_neg (by simpa [isSuccess, supabase_upsert] using hs)]
          rw [ih]
          omega
      | httpError c body =>
        show (if c = 200 || c = 201 then b.length else 0) + (runUpsertLoop rest).1 = _
        by_cases hs : (c = 200 || c = 201) = true
        · rw [if_pos hs, List.filter_cons_of_pos (by simpa [isSuccess, supabase_upsert] using hs)]
          rw [List.map_cons, List.sum_cons, ih]
        · rw [if_neg hs, List.filter_cons_of_neg (by simpa [isSuccess, supabase_upsert] using hs)]
          rw [ih]
          omega
  · intro bs
    induction bs with
    | nil => rfl
    | cons p rest ih =>
      obtain ⟨b, resp⟩ := p
      cases resp with
      | ok s =>
        show (runUpsertLoop rest).2 = _
        rw [List.filterMap_cons_none (by rfl), ih]
      | httpError c body =>
        show (c, body.take 200) :: (runUpsertLoop rest).2 = _
        rw [List.filterMap_cons_some (by rfl), ih]

/-! ## Claim C9: configuration check -/

/-- C9, counterexample: the claim says the script proceeds whenever both
environment variables are present, but the code tests truthiness, not
presence — a present-but-empty base URL (`some ""`) with a present key
still aborts with exit code 1. -/
theorem c9_counterexample :
    (some ([] : List Char) ≠ none) ∧ (some ("k".toList) ≠ none) ∧
    moduleInit (some []) (some ("k".toList)) =
      Except.error (1, ["Error: Missing environment variables".toList,
        "Run: source .env.local first".toList]) := by
  refine ⟨by simp, by simp, rfl⟩

/-- C9 as amended: if either variable is absent — or present but empty —
the script prints the error lines and exits with code 1 before anything
else runs (the check is the first statement after the environment reads);
if both are present and non-empty it proceeds with those values, without
aborting. -/
theorem c9_config_check_amended :
    (∀ url key : Option (List Char),
      optStrTruthy url = false ∨ optStrTruthy key = false →
      moduleInit url key =
        Except.error (1, ["Error: Missing environment variables".toList,
          "Run: source .env.local first".toList]))
    ∧ (∀ url key : Option (List Char),
      optStrTruthy url = true → optStrTruthy key = true →
      moduleInit url key = Except.ok (url.getD [], key.getD [])) := by
  constructor
  · intro url key h
    unfold moduleInit
    rcases h with h | h <;> rw [h] <;> simp
  · intro url key hu hk
    unfold moduleInit
    rw [hu, hk]
    simp

/-- C9 amended, witness: both variables set and non-empty — the init check
passes and hands the values on. -/
theorem c9_config_check_amended_witness :
    moduleInit (some ("u".toList)) (some ("k".toList)) =
      Except.ok ("u".toList, "k".toList) := by
  have h := c9_config_check_amended.2 (some ("u".toList)) (some ("k".toList))
    (by decide) (by decide)
  rw [h]
  rfl

end ImportPerformance
